import Mathlib

/-
Verification of `custom_components/scheduler/datacollection.py`.

The Python module is shallowly embedded below.  Python strings are modelled
as lists of characters (`PyStr`); Python dicts whose keys are the fixed
set of keys used by the source are modelled as structures with `Option`
fields (a key is present iff the field is `some`); arbitrary-key dicts
(the action dicts) are modelled as association lists in insertion order.
Fallible code (KeyError / IndexError / raised exceptions / the regex
pattern failing to match) is modelled with `Option` / `Except`.
Timestamps (`datetime` values, produced by the external helper
`calculate_next_start_time`, which lives in `helpers.py` and is not part
of this repository snapshot) are modelled as integers counting seconds;
the helper itself is taken as an abstract parameter `calcNext`.
-/

namespace Scheduler

/-- Python strings, modelled as lists of characters. -/
abbrev PyStr := List Char

/-- View of a Lean string literal as a modelled Python string. -/
def pystr (s : String) : PyStr := s.data

/-- Python `s.replace(c, "")` for a one-character pattern `c`: replacing
every occurrence of a single character by the empty string removes all of
its occurrences. -/
def removeChar (c : Char) (s : PyStr) : PyStr := s.filter (fun x => x ≠ c)

/-- Python `c in s` for a one-character `c` (substring test of a single
character is membership). -/
def hasChar (c : Char) (s : PyStr) : Bool := s.contains c

/-- Python `s.split(sep).pop(0)` for a one-character separator: the text
before the first occurrence of `c` (the whole string if `c` is absent). -/
def headSplit (c : Char) (s : PyStr) : PyStr := s.takeWhile (fun x => x ≠ c)

/-- Python `int(s)` on a non-empty string of decimal digits. -/
def pyInt (s : PyStr) : Nat := s.foldl (fun a c => 10 * a + (c.toNat - 48)) 0

/-- Helper for `pyStr`: fuel-driven base-10 rendering (the fuel argument
only serves to make the recursion structural; `pyStr` supplies enough). -/
def pyStrAux : Nat → Nat → PyStr
  | 0, _ => []
  | fuel + 1, n =>
    if n < 10 then [Nat.digitChar n]
    else pyStrAux fuel (n / 10) ++ [Nat.digitChar (n % 10)]

/-- Python `str(n)` on a non-negative integer: canonical decimal digits. -/
def pyStr (n : Nat) : PyStr := pyStrAux (n + 1) n

/-- Python `s.split(c)` for a one-character separator, keeping empty
pieces, e.g. `"A0A1".split("A") = ["", "0", "1"]`. -/
def pySplit (c : Char) : PyStr → List PyStr
  | [] => [[]]
  | x :: xs =>
    if x = c then [] :: pySplit c xs
    else
      match pySplit c xs with
      | [] => [[x]]
      | h :: t => (x :: h) :: t

/-- Python `sep.join(parts)` for a one-character separator. -/
def joinSep (c : Char) : List PyStr → PyStr
  | [] => []
  | [x] => x
  | x :: y :: rest => x ++ c :: joinSep c (y :: rest)

/-- An action dict: arbitrary string keys mapped to string values, in
insertion order (the source copies parameter values through opaquely, so
modelling the values as strings loses nothing). -/
abbrev PyDict := List (String × PyStr)

/-- Python `d[k]` / `k in d` on an action dict: first binding of `k`. -/
def lookup (d : PyDict) (k : String) : Option PyStr :=
  (d.find? (fun p => p.1 == k)).map (fun p => p.2)

/-
Data model.  `TimeDict` is the dict stored under the `"time"` /
`"end_time"` keys of an entry: it can hold the keys `"at"`, `"event"`
and `"offset"` (a key is present iff the field is `some`).  `Entry` is
the `my_entry` dict built by `DataCollection.import_data`.
-/

/-- The time dict of an entry (keys `at` / `event` / `offset`). -/
structure TimeDict where
  at_ : Option PyStr
  event : Option PyStr
  offset : Option PyStr
deriving DecidableEq

/-- One schedule entry (the source's `my_entry` dict). -/
structure Entry where
  time : TimeDict
  end_time : Option TimeDict
  days : List Nat
  actions : List Nat
deriving DecidableEq

/-- The `DataCollection` object.  `σ` is the (external) type of a sun-data
snapshot; the source only stores it and hands it to the external helper
`calculate_next_start_time`, so it stays abstract. -/
structure DataCollection (σ : Type) where
  entries : List Entry
  actions : List PyDict
  name : Option PyStr
  icon : Option PyStr
  sun_data : Option σ
deriving DecidableEq

/-- `DataCollection.__init__`. -/
def newDC (σ : Type) : DataCollection σ := ⟨[], [], none, none, none⟩

/-
The three regular expressions of the source, embedded as concrete
matching functions (Python `re.match` with leftmost-greedy backtracking):

  EntryPattern     = `^D([0-9]+)T([0-9SRDUW]+)T?([0-9SRDUW]+)?([A0-9]+)$`
  FixedTimePattern = `^([0-9]{2})([0-9]{2})$`
  SunTimePattern   = `^(([0-9]{2})([0-9]{2}))?(S[SRDUW])(([0-9]{2})([0-9]{2}))?$`
-/

/-- Character class `[0-9SRDUW]` (groups 2 and 3 of `EntryPattern`). -/
def isC2 (c : Char) : Bool :=
  c.isDigit || c == 'S' || c == 'R' || c == 'D' || c == 'U' || c == 'W'

/-- Character class `[A0-9]` (group 4 of `EntryPattern`). -/
def isC4 (c : Char) : Bool := c.isDigit || c == 'A'

/-- Group 4 of `EntryPattern` is `[A0-9]+` followed by `$`: it must take
the whole remaining input, which must be non-empty and inside the class. -/
def g4ok (l : PyStr) : Bool := !l.isEmpty && l.all isC4

/-- Backtracking for `([0-9SRDUW]+)?([A0-9]+)$` on `rest`: the optional
group is greedy, so candidate lengths are tried from `j` (the maximal
run of `[0-9SRDUW]` characters) down to 1, and then the group is skipped.
Group 4 takes whatever remains. -/
def tryG3 (rest : PyStr) : Nat → Option (Option PyStr × PyStr)
  | 0 => if g4ok rest then some (none, rest) else none
  | j + 1 =>
    if g4ok (rest.drop (j + 1)) then some (some (rest.take (j + 1)), rest.drop (j + 1))
    else tryG3 rest j

/-- Backtracking for `T?([0-9SRDUW]+)?([A0-9]+)$`: the optional literal
`T` is greedy (consumed first when present, then retried unconsumed). -/
def tryTail (rest1 : PyStr) : Option (Option PyStr × PyStr) :=
  match rest1 with
  | 'T' :: rest2 =>
    (tryG3 rest2 ((rest2.takeWhile isC2).length)).orElse
      (fun _ => tryG3 rest1 ((rest1.takeWhile isC2).length))
  | _ => tryG3 rest1 ((rest1.takeWhile isC2).length)

/-- Backtracking for `([0-9SRDUW]+)T?([0-9SRDUW]+)?([A0-9]+)$` on `cs`:
group 2 is greedy, so its candidate lengths run from the maximal
`[0-9SRDUW]` run down to 1. -/
def tryG2 (cs : PyStr) : Nat → Option (PyStr × Option PyStr × PyStr)
  | 0 => none
  | i + 1 =>
    match tryTail (cs.drop (i + 1)) with
    | some (g3, g4) => some (cs.take (i + 1), g3, g4)
    | none => tryG2 cs i

/-- After group 1, `EntryPattern` requires the literal `T` and then the
time/action groups, handled by `tryG2`. -/
def entryTimes (rest2 : PyStr) : Option (PyStr × Option PyStr × PyStr) :=
  match rest2 with
  | 'T' :: cs => tryG2 cs ((cs.takeWhile isC2).length)
  | _ => none

/-- `EntryPattern.match`: returns the four captured groups.  Group 1
(`[0-9]+` after the literal `D`) must be the maximal digit run: a shorter
candidate ends in front of another digit, where the required literal `T`
against a digit fails, so backtracking over group 1 can never help. -/
def entryMatch (s : PyStr) : Option (PyStr × PyStr × Option PyStr × PyStr) :=
  match s with
  | 'D' :: rest =>
    if (rest.takeWhile Char.isDigit).isEmpty then none
    else
      (entryTimes (rest.dropWhile Char.isDigit)).map
        (fun r => (rest.takeWhile Char.isDigit, r))
  | _ => none

/-- `FixedTimePattern.match`: exactly four digits, captured two-and-two. -/
def fixedTimeMatch (s : PyStr) : Option (PyStr × PyStr) :=
  match s with
  | [a, b, c, d] =>
    if a.isDigit && b.isDigit && c.isDigit && d.isDigit then some ([a, b], [c, d])
    else none
  | _ => none

/-- Character class `[SRDUW]` of `SunTimePattern`. -/
def isSRDUW (c : Char) : Bool :=
  c == 'S' || c == 'R' || c == 'D' || c == 'U' || c == 'W'

/-- The trailing `(([0-9]{2})([0-9]{2}))?$` of `SunTimePattern`: the rest
must be empty (group absent) or exactly four digits (the greedy optional
group can only succeed on exactly four digits followed by the anchor). -/
def sunSuffix : PyStr → Option (Option (PyStr × PyStr))
  | [] => some none
  | [e, f, g, h] =>
    if e.isDigit && f.isDigit && g.isDigit && h.isDigit then some (some ([e, f], [g, h]))
    else none
  | _ => none

/-- `SunTimePattern.match`, returning (prefix groups 2-3, group 4, suffix
groups 6-7).  The optional four-digit prefix is tried greedily first; it
can match only when the string starts with a digit, and when the string
starts with `S` followed by `[SRDUW]` the prefix (four digits) can never
match, so the two cases below are exactly the regex's behaviour. -/
def sunTimeMatch (s : PyStr) : Option (Option (PyStr × PyStr) × PyStr × Option (PyStr × PyStr)) :=
  match s with
  | c0 :: c1 :: rest01 =>
    if c0 == 'S' && isSRDUW c1 then
      (sunSuffix rest01).map (fun suf => (none, [c0, c1], suf))
    else
      match c0 :: c1 :: rest01 with
      | a :: b :: c :: d :: e :: x :: rest =>
        if a.isDigit && b.isDigit && c.isDigit && d.isDigit && e == 'S' && isSRDUW x then
          (sunSuffix rest).map (fun suf => (some ([a, b], [c, d]), [e, x], suf))
        else none
      | _ => none
  | _ => none

/-
The codec: `DataCollection.import_data` and `DataCollection.export_data`.
-/

/-- The two ways a single compact entry string can fail to import: the
whole string does not match `EntryPattern` (the source returns `False`),
or a time segment matches neither time pattern (the source raises
`Exception("failed to parse time ...")`). -/
inductive ImpErr where
  | noMatchEntry : ImpErr
  | timeErr (msg : PyStr) : ImpErr
deriving DecidableEq

/-- The source's inner `import_time_input` of `import_data`: decodes one
time segment into a time dict.  When the sun pattern matches with both
offset groups absent, Python formats the `None` groups, producing the
string `"+None:None"`; when group 4 is one of `SD`, `SU`, `SW` no branch
fires and the `"event"` key is never set. -/
def import_time_input (time_str : PyStr) : Except PyStr TimeDict :=
  match fixedTimeMatch time_str with
  | some (g1, g2) => .ok ⟨some (g1 ++ ':' :: g2), none, none⟩
  | none =>
    match sunTimeMatch time_str with
    | some (pre, code, suf) =>
      let event : Option PyStr :=
        if code = pystr "SR" then some (pystr "sunrise")
        else if code = pystr "SS" then some (pystr "sunset")
        else if code = pystr "DW" then some (pystr "dawn")
        else if code = pystr "DU" then some (pystr "dusk")
        else none
      let offset : PyStr :=
        match pre with
        | some (hh, mm) => '-' :: (hh ++ ':' :: mm)
        | none =>
          match suf with
          | some (hh, mm) => '+' :: (hh ++ ':' :: mm)
          | none => pystr "+None:None"
      .ok ⟨none, event, some offset⟩
    | none => .error (pystr "failed to parse time " ++ time_str)

/-- Decoding of one compact entry string inside `import_data`'s loop:
match `EntryPattern`, decode the one or two time segments, turn the day
digits and the `A`-separated action indices into integers. -/
def importEntry (s : PyStr) : Except ImpErr Entry :=
  match entryMatch s with
  | none => .error .noMatchEntry
  | some (g1, g2, g3, g4) =>
    match import_time_input g2 with
    | .error m => .error (.timeErr m)
    | .ok td =>
      let days := g1.map (fun c => pyInt [c])
      let acts := ((pySplit 'A' g4).filter (fun p => !p.isEmpty)).map pyInt
      match g3 with
      | some g3s =>
        match import_time_input g3s with
        | .error m => .error (.timeErr m)
        | .ok etd => .ok ⟨td, some etd, days, acts⟩
      | none => .ok ⟨td, none, days, acts⟩

/-- The argument dict of `import_data` (`data`): the keys the source
reads.  A key is present iff the field is `some`. -/
structure ImportInput where
  actions : Option (List PyDict)
  entries : Option (List PyStr)
  friendly_name : Option PyStr
  icon : Option PyStr

/-- The `for entry in data["entries"]` loop of `import_data`: appends the
decoded entries one by one; returns `False` as soon as `EntryPattern`
fails; propagates the raised exception of a bad time segment.  The first
component is the value returned (or the exception), the second the state
of the object when control leaves the loop. -/
def importEntries {σ : Type} (st : DataCollection σ) :
    List PyStr → Except PyStr Bool × DataCollection σ
  | [] => (.ok true, st)
  | s :: rest =>
    match importEntry s with
    | .error .noMatchEntry => (.ok false, st)
    | .error (.timeErr m) => (.error m, st)
    | .ok e => importEntries { st with entries := st.entries ++ [e] } rest

/-- `DataCollection.import_data`.  Note the order of effects in the
source: `self.actions` is overwritten before the entry loop runs, and
`name` / `icon` are only set after the whole loop succeeds. -/
def import_data {σ : Type} (st : DataCollection σ) (data : ImportInput) :
    Except PyStr Bool × DataCollection σ :=
  match data.actions, data.entries with
  | some acts, some es =>
    match importEntries { st with actions := acts } es with
    | (.ok true, st1) =>
      let st2 := { st1 with
        name := match data.friendly_name with | some n => some n | none => st1.name
        icon := match data.icon with | some i => some i | none => st1.icon }
      (.ok true, st2)
    | r => r
  | _, _ => (.ok false, st)

/-- The source's inner `export_time` of `export_data`.  An unknown event
name leaves Python's `event_string` unbound (`NameError` at use); a time
dict with an `event` but no `offset` key raises `KeyError`; a time dict
with neither `at` nor `event` raises `Exception`. -/
def export_time (t : TimeDict) : Except PyStr PyStr :=
  match t.at_ with
  | some a => .ok (removeChar ':' a)
  | none =>
    match t.event with
    | some ev =>
      let eventString : Option PyStr :=
        if ev = pystr "sunrise" then some (pystr "SR")
        else if ev = pystr "sunset" then some (pystr "SS")
        else if ev = pystr "dawn" then some (pystr "DW")
        else if ev = pystr "dusk" then some (pystr "DU")
        else none
      match eventString with
      | none => .error (pystr "NameError: event_string")
      | some es =>
        match t.offset with
        | none => .error (pystr "KeyError: offset")
        | some off =>
          if hasChar '+' off then .ok (es ++ removeChar ':' (removeChar '+' off))
          else .ok (removeChar ':' (removeChar '-' off) ++ es)
    | none => .error (pystr "failed to parse time object")

/-- Encoding of one entry inside `export_data`'s loop. -/
def exportEntry (e : Entry) : Except PyStr PyStr :=
  match export_time e.time with
  | .error m => .error m
  | .ok ts =>
    match (match e.end_time with
           | some t => (export_time t).map some
           | none => .ok none) with
    | .error m => .error m
    | .ok ets =>
      let days_string := (e.days.map pyStr).flatten
      let action_string := joinSep 'A' (e.actions.map pyStr)
      .ok ('D' :: (days_string ++ 'T' :: (ts ++
        (match ets with | some es2 => 'T' :: es2 | none => []) ++ 'A' :: action_string)))

/-- The dict returned by `export_data`. -/
structure ExportOutput where
  entries : List PyStr
  actions : List PyDict
deriving DecidableEq

/-- The `for entry in self.entries` loop of `export_data`: encodes each
entry in order; a raised exception propagates. -/
def exportEntries : List Entry → Except PyStr (List PyStr)
  | [] => .ok []
  | e :: rest =>
    match exportEntry e with
    | .error m => .error m
    | .ok s =>
      match exportEntries rest with
      | .error m => .error m
      | .ok ss => .ok (s :: ss)

/-- `DataCollection.export_data`. -/
def export_data {σ : Type} (st : DataCollection σ) : Except PyStr ExportOutput :=
  match exportEntries st.entries with
  | .error m => .error m
  | .ok es => .ok ⟨es, st.actions⟩

/-- Equality of `Except` values is decidable when both sides are. -/
instance {ε α : Type} [DecidableEq ε] [DecidableEq α] : DecidableEq (Except ε α) := fun x y =>
  match x, y with
  | .ok a, .ok b =>
    if h : a = b then isTrue (by rw [h]) else isFalse (by intro hc; cases hc; exact h rfl)
  | .error a, .error b =>
    if h : a = b then isTrue (by rw [h]) else isFalse (by intro hc; cases hc; exact h rfl)
  | .ok _, .error _ => isFalse (by intro hc; cases hc)
  | .error _, .ok _ => isFalse (by intro hc; cases hc)

/-
`DataCollection.get_service_calls_for_entry` (the action resolver).
-/

/-- One resolved service call (the `call` dict of the source: key
`service`, optional key `entity_id`, and the `data` bag, which the
source creates only when at least one extra parameter exists — an empty
`data` list here models the absent key). -/
structure Call where
  service : PyStr
  entity_id : Option PyStr
  data : List (String × PyStr)
deriving DecidableEq

/-- The body of the resolver loop for one in-range action dict: build the
call, infer a missing domain on either side, apply the `entity_id`
override, copy the remaining keys into `data`.  Accessing the missing
`entity_id` key (service without a dot and no entity) raises `KeyError`
in the source. -/
def resolveAction (a : PyDict) : Except PyStr Call :=
  match lookup a "service" with
  | none => .error (pystr "KeyError: service")
  | some s0 =>
    let ent0 : Option PyStr := lookup a "entity"
    let step1 : Except PyStr (PyStr × Option PyStr) :=
      if !(hasChar '.' s0) then
        match ent0 with
        | none => .error (pystr "KeyError: entity_id")
        | some e => .ok (headSplit '.' e ++ '.' :: s0, some e)
      else
        match ent0 with
        | some e =>
          if !(hasChar '.' e) then .ok (s0, some (headSplit '.' s0 ++ '.' :: e))
          else .ok (s0, some e)
        | none => .ok (s0, none)
    match step1 with
    | .error m => .error m
    | .ok (sv, ent1) =>
      let ent2 := match lookup a "entity_id" with | some v => some v | none => ent1
      let dataBag := a.filter (fun p =>
        !(p.1 == "service") && !(p.1 == "entity") && !(p.1 == "entity_id"))
      .ok ⟨sv, ent2, dataBag⟩

/-- The `for action in actions` loop of `get_service_calls_for_entry`:
indices not below the action-table length are skipped entirely. -/
def service_calls_aux (acts : List PyDict) : List Nat → Except PyStr (List Call)
  | [] => .ok []
  | r :: rs =>
    if h : r < acts.length then
      match resolveAction (acts.get ⟨r, h⟩) with
      | .error m => .error m
      | .ok c =>
        match service_calls_aux acts rs with
        | .error m => .error m
        | .ok cs => .ok (c :: cs)
    else service_calls_aux acts rs

/-- `DataCollection.get_service_calls_for_entry` (indexing a missing
entry raises `IndexError` in the source). -/
def get_service_calls_for_entry {σ : Type} (st : DataCollection σ) (entry : Nat) :
    Except PyStr (List Call) :=
  match st.entries[entry]? with
  | none => .error (pystr "IndexError: entries")
  | some e => service_calls_aux st.actions e.actions

/-
`DataCollection.get_timestamp_for_entry`, `update_sun_data` and
`get_next_entry`.  These call the external helper
`calculate_next_start_time(entry, sun_data)` (from `helpers.py`, not in
this repository snapshot), abstracted as a parameter
`calc : Entry → Option σ → Int` returning a timestamp in seconds.
Python truthiness of the snapshot (`if not self.sun_data` /
`if not sun_data`) is modelled as absence of the optional value.
-/

/-- `DataCollection.get_timestamp_for_entry`. -/
def get_timestamp_for_entry {σ : Type} (calcNext : Entry → Option σ → Int)
    (st : DataCollection σ) (entry : Nat) (sun_data : Option σ) : Except PyStr Int :=
  let sd := match sun_data with | none => st.sun_data | some d => some d
  match st.entries[entry]? with
  | none => .error (pystr "IndexError: entries")
  | some e => .ok (calcNext e sd)

/-- `DataCollection.update_sun_data`.  Note that in the drift branch the
source's `self.sun_data = sun_data` line sits after `return True` and is
therefore never executed. -/
def update_sun_data {σ : Type} (calcNext : Entry → Option σ → Int)
    (st : DataCollection σ) (sun_data : σ) (entry : Option Nat) :
    Except PyStr Bool × DataCollection σ :=
  match st.sun_data with
  | none => (.ok false, { st with sun_data := some sun_data })
  | some _ =>
    match entry with
    | none => (.ok false, st)
    | some i =>
      match get_timestamp_for_entry calcNext st i st.sun_data,
            get_timestamp_for_entry calcNext st i (some sun_data) with
      | .ok ts_old, .ok ts_new =>
        let delta := ts_old - ts_new
        if 60 ≤ |delta| ∧ |delta| ≤ 3600 then (.ok true, st) else (.ok false, st)
      | .error m, _ => (.error m, st)
      | .ok _, .error m => (.error m, st)

/-- The final `for i in range(len(timestamps))` loop of `get_next_entry`:
index of the first element equal to `v`. -/
def findFirstIdx (l : List Int) (v : Int) : Option Nat :=
  match l with
  | [] => none
  | x :: xs => if x = v then some 0 else (findFirstIdx xs v).map (fun j => j + 1)

/-- `DataCollection.get_next_entry`.  `now` is the value of
`dt_util.now()` (external clock).  `functools.reduce` over the map keeps
`x` when `x - now < y - now` and otherwise moves to `y`; on an empty
entry list `reduce` raises `TypeError`. -/
def get_next_entry {σ : Type} (calcNext : Entry → Option σ → Int)
    (st : DataCollection σ) (now : Int) : Except PyStr (Option Nat) :=
  let timestamps := st.entries.map (fun e => calcNext e st.sun_data)
  match timestamps with
  | [] => .error (pystr "TypeError: reduce of empty sequence")
  | t :: rest =>
    let closest := rest.foldl (fun x y => if x - now < y - now then x else y) t
    .ok (findFirstIdx timestamps closest)

/-
The compact-string grammar of spec section 4.1, formalised from the
spec's words (needed to quantify over "syntactically valid compact entry
strings"):

  Entry    := "D" Days "T" Time ("T" Time)? "A" Actions
  Days     := digit+                  (each digit 0-6)
  Time     := FixedTime | SolarTime
  FixedTime:= HHMM                    (4 digits, 24h clock)
  SolarTime:= (OffsetPrefix)? EventCode (OffsetSuffix)?  (at most one offset)
  EventCode:= "SR" | "SS" | "DW" | "DU"
  Actions  := index ("A" index)*     (canonical decimal indices)
-/

/-- Event codes of the grammar. -/
inductive SpecEvent where
  | SR : SpecEvent
  | SS : SpecEvent
  | DW : SpecEvent
  | DU : SpecEvent
deriving DecidableEq

/-- The two characters of an event code. -/
def SpecEvent.chars : SpecEvent → PyStr
  | .SR => ['S', 'R']
  | .SS => ['S', 'S']
  | .DW => ['D', 'W']
  | .DU => ['D', 'U']

/-- A `Time` of the grammar: fixed `HHMM`, or an event code with an
offset `HHMM` on the left (negative), on the right (positive), or absent. -/
inductive SpecTime where
  | fixed (hh mm : Nat) : SpecTime
  | solarNeg (hh mm : Nat) (e : SpecEvent) : SpecTime
  | solarPos (e : SpecEvent) (hh mm : Nat) : SpecTime
  | solarPlain (e : SpecEvent) : SpecTime
deriving DecidableEq

/-- Zero-padded two-digit rendering of `n < 100`. -/
def two (n : Nat) : PyStr := [Nat.digitChar (n / 10), Nat.digitChar (n % 10)]

/-- The characters of a `Time` segment. -/
def SpecTime.chars : SpecTime → PyStr
  | .fixed hh mm => two hh ++ two mm
  | .solarNeg hh mm e => two hh ++ two mm ++ e.chars
  | .solarPos e hh mm => e.chars ++ two hh ++ two mm
  | .solarPlain e => e.chars

/-- Well-formedness of a `Time` segment (`HHMM` on a 24-hour clock). -/
def SpecTime.Wf : SpecTime → Prop
  | .fixed hh mm => hh < 24 ∧ mm < 60
  | .solarNeg hh mm _ => hh < 24 ∧ mm < 60
  | .solarPos _ hh mm => hh < 24 ∧ mm < 60
  | .solarPlain _ => True

/-- The restriction under which the codec round-trips on strings: the
solar segment carries exactly one offset and an `S`-initial event code
(`SR` or `SS`).  Offset-less segments decode to the junk offset
`"+None:None"`, and `DW` / `DU` segments do not survive decoding at all,
see the C1 counterexample and the C2 code-bug theorem. -/
def SpecTime.Importable : SpecTime → Prop
  | .fixed _ _ => True
  | .solarNeg _ _ e => e = .SR ∨ e = .SS
  | .solarPos e _ _ => e = .SR ∨ e = .SS
  | .solarPlain _ => False

/-- A syntactically valid compact entry string, by its grammar parts. -/
structure SpecEntry where
  days : List Nat
  t1 : SpecTime
  t2 : Option SpecTime
  acts : List Nat

/-- The compact string denoted by the grammar parts. -/
def SpecEntry.chars (g : SpecEntry) : PyStr :=
  'D' :: (g.days.map Nat.digitChar ++
    'T' :: (g.t1.chars ++
      (match g.t2 with | some t => 'T' :: t.chars | none => []) ++
        'A' :: joinSep 'A' (g.acts.map pyStr)))

/-- Well-formedness of the grammar parts: at least one day digit, each in
0..6, at least one action index, well-formed time segments. -/
def SpecEntry.Wf (g : SpecEntry) : Prop :=
  g.days ≠ [] ∧ (∀ d ∈ g.days, d ≤ 6) ∧ g.acts ≠ [] ∧ g.t1.Wf ∧
    (∀ t, g.t2 = some t → t.Wf)

/-- The C1 amendment's restriction, applied to both time segments. -/
def SpecEntry.Importable (g : SpecEntry) : Prop :=
  g.t1.Importable ∧ (∀ t, g.t2 = some t → t.Importable)

/-- The time dict that decoding a (restricted) grammar time segment
produces. -/
def tdOf : SpecTime → TimeDict
  | .fixed hh mm => ⟨some (two hh ++ ':' :: two mm), none, none⟩
  | .solarNeg hh mm e =>
    ⟨none, if e = .SR then some (pystr "sunrise") else some (pystr "sunset"),
      some ('-' :: (two hh ++ ':' :: two mm))⟩
  | .solarPos e hh mm =>
    ⟨none, if e = .SR then some (pystr "sunrise") else some (pystr "sunset"),
      some ('+' :: (two hh ++ ':' :: two mm))⟩
  | .solarPlain _ => ⟨none, none, none⟩

/-- The entry that decoding a (restricted) valid grammar string produces. -/
def entryOf (g : SpecEntry) : Entry :=
  ⟨tdOf g.t1, g.t2.map tdOf, g.days, g.acts⟩

/-
Concrete fixtures used by witnesses and counterexamples.
-/

/-- Fixture: a minimal entry whose action list references index 0. -/
def entry0 : Entry := ⟨⟨none, none, none⟩, none, [0], [0]⟩

/-- Fixture: an aggregate holding one entry and one action whose service
has no dot and which has no entity. -/
def dcNoDot : DataCollection Unit :=
  ⟨[entry0], [[("service", pystr "turn_on")]], none, none, none⟩

/-- Fixture: an aggregate with one entry and a stored sun snapshot (the
snapshot type is `Int`, read off as the timestamp itself). -/
def dcSun : DataCollection Int := ⟨[entry0], [], none, none, some 0⟩

/-- Fixture: a stand-in for `calculate_next_start_time` that reads the
snapshot as the timestamp. -/
def snapCalc : Entry → Option Int → Int := fun _ sd => sd.getD 0

/-- Fixture: a stand-in for `calculate_next_start_time` that fires each
entry at its first weekday index. -/
def dayCalc : Entry → Option Unit → Int := fun e _ => (e.days.headD 0 : Int)

/-- Fixture: three entries with timestamps 5, 3, 3 under `dayCalc`. -/
def dcThree : DataCollection Unit :=
  ⟨[⟨⟨none, none, none⟩, none, [5], []⟩, ⟨⟨none, none, none⟩, none, [3], []⟩,
    ⟨⟨none, none, none⟩, none, [3], []⟩], [], none, none, none⟩

/-- Fixture: a table of three resolvable actions. -/
def acts3 : List PyDict :=
  [[("service", pystr "light.turn_on"), ("entity", pystr "light.a")],
   [("service", pystr "light.turn_on"), ("entity", pystr "light.b")],
   [("service", pystr "light.turn_on"), ("entity", pystr "light.c")]]

/-- Fixture: an aggregate with the three actions of `acts3` and one entry
referencing action indices 0, 5 and 1 (5 is out of range). -/
def dc3 : DataCollection Unit :=
  ⟨[⟨⟨none, none, none⟩, none, [0], [0, 5, 1]⟩], acts3, none, none, none⟩

/-
Lemmas about characters and decimal rendering.
-/

lemma digitChar_isDigit {n : Nat} (h : n < 10) : (Nat.digitChar n).isDigit = true := by
  interval_cases n <;> decide

lemma pyInt_digitChar {n : Nat} (h : n < 10) : pyInt [Nat.digitChar n] = n := by
  interval_cases n <;> decide

lemma ne_of_isDigit {c x : Char} (h : c.isDigit = true) (hx : x.isDigit = false) : c ≠ x := by
  intro he
  rw [he, hx] at h
  cases h

lemma isC2_of_isDigit {c : Char} (h : c.isDigit = true) : isC2 c = true := by
  simp [isC2, h]

lemma isC4_of_isDigit {c : Char} (h : c.isDigit = true) : isC4 c = true := by
  simp [isC4, h]

lemma pyStrAux_irrel : ∀ (f1 : Nat) (f2 n : Nat), n < f1 → n < f2 →
    pyStrAux f1 n = pyStrAux f2 n := by
  intro f1
  induction f1 with
  | zero => intro f2 n h1 _; omega
  | succ f ih =>
    intro f2 n h1 h2
    cases f2 with
    | zero => omega
    | succ f2p =>
      by_cases h10 : n < 10
      · simp [pyStrAux, h10]
      · have hdiv : n / 10 < n := Nat.div_lt_self (by omega) (by omega)
        simp only [pyStrAux, if_neg h10]
        rw [ih f2p (n / 10) (by omega) (by omega)]

lemma pyStr_eq (n : Nat) : pyStr n =
    if n < 10 then [Nat.digitChar n]
    else pyStr (n / 10) ++ [Nat.digitChar (n % 10)] := by
  by_cases h10 : n < 10
  · simp [pyStr, pyStrAux, h10]
  · have hdiv : n / 10 < n := Nat.div_lt_self (by omega) (by omega)
    have h1 : pyStr n = pyStrAux n (n / 10) ++ [Nat.digitChar (n % 10)] := by
      simp [pyStr, pyStrAux, h10]
    rw [h1, if_neg h10, pyStrAux_irrel n (n / 10 + 1) (n / 10) (by omega) (by omega)]
    rfl

lemma pyStr_lt10 {n : Nat} (h : n < 10) : pyStr n = [Nat.digitChar n] := by
  rw [pyStr_eq]; simp [h]

lemma pyStr_ne_nil (n : Nat) : pyStr n ≠ [] := by
  rw [pyStr_eq]
  by_cases h10 : n < 10 <;> simp [h10]

lemma pyStr_all_digit (n : Nat) : ∀ c ∈ pyStr n, c.isDigit = true := by
  induction n using Nat.strong_induction_on with
  | _ n ih =>
    rw [pyStr_eq]
    by_cases h10 : n < 10
    · simp [h10]
      exact digitChar_isDigit h10
    · have hdiv : n / 10 < n := Nat.div_lt_self (by omega) (by omega)
      simp [h10]
      intro c hc
      rcases hc with hc | hc
      · exact ih (n / 10) hdiv c hc
      · rw [hc]
        exact digitChar_isDigit (Nat.mod_lt _ (by omega))

lemma pyInt_append_digit (l : PyStr) (c : Char) :
    pyInt (l ++ [c]) = 10 * pyInt l + (c.toNat - 48) := by
  simp [pyInt, List.foldl_append]

lemma pyInt_pyStr (n : Nat) : pyInt (pyStr n) = n := by
  induction n using Nat.strong_induction_on with
  | _ n ih =>
    rw [pyStr_eq]
    by_cases h10 : n < 10
    · simp [h10]
      exact pyInt_digitChar h10
    · have hdiv : n / 10 < n := Nat.div_lt_self (by omega) (by omega)
      simp [h10, pyInt_append_digit, ih (n / 10) hdiv]
      have hm : pyInt [Nat.digitChar (n % 10)] = n % 10 :=
        pyInt_digitChar (Nat.mod_lt _ (by omega))
      simp [pyInt] at hm
      omega

/-
Lemmas about list splitting, joining and filtering.
-/

lemma takeWhile_append_stop {p : Char → Bool} :
    ∀ (xs : List Char) (y : Char) (ys : List Char),
      (∀ x ∈ xs, p x = true) → p y = false →
      (xs ++ y :: ys).takeWhile p = xs := by
  intro xs
  induction xs with
  | nil => intro y ys _ hy; simp [List.takeWhile, hy]
  | cons x xs ih =>
    intro y ys hall hy
    have hx : p x = true := hall x (by simp)
    simp only [List.cons_append, List.takeWhile, hx]
    exact congrArg (fun l => x :: l) (ih y ys (fun a ha => hall a (by simp [ha])) hy)

lemma dropWhile_append_stop {p : Char → Bool} :
    ∀ (xs : List Char) (y : Char) (ys : List Char),
      (∀ x ∈ xs, p x = true) → p y = false →
      (xs ++ y :: ys).dropWhile p = y :: ys := by
  intro xs
  induction xs with
  | nil => intro y ys _ hy; simp [List.dropWhile, hy]
  | cons x xs ih =>
    intro y ys hall hy
    have hx : p x = true := hall x (by simp)
    simp only [List.cons_append, List.dropWhile, hx]
    exact ih y ys (fun a ha => hall a (by simp [ha])) hy

lemma take_len_append (xs ys : List Char) : (xs ++ ys).take xs.length = xs := by
  induction xs with
  | nil => simp
  | cons x xs ih => simp [ih]

lemma drop_len_append (xs ys : List Char) : (xs ++ ys).drop xs.length = ys := by
  induction xs with
  | nil => simp
  | cons x xs ih => simp [ih]

lemma removeChar_nin {c : Char} {l : PyStr} (h : ∀ x ∈ l, x ≠ c) :
    removeChar c l = l := by
  induction l with
  | nil => rfl
  | cons x xs ih =>
    have hx : x ≠ c := h x (by simp)
    have ih2 : removeChar c xs = xs := ih (fun a ha => h a (by simp [ha]))
    simp only [removeChar] at ih2 ⊢
    rw [List.filter_cons, if_pos (by simpa using hx), ih2]

lemma removeChar_cons_self (c : Char) (l : PyStr) :
    removeChar c (c :: l) = removeChar c l := by
  simp [removeChar, List.filter]

lemma hasChar_nin {c : Char} {l : PyStr} (h : ∀ x ∈ l, x ≠ c) :
    hasChar c l = false := by
  simp only [hasChar, List.contains_eq_any_beq, List.any_eq_false]
  intro x hx
  simpa using Ne.symm (h x hx)

lemma hasChar_cons_self (c : Char) (l : PyStr) : hasChar c (c :: l) = true := by
  simp [hasChar, List.contains_eq_any_beq]

lemma pySplit_nin {c : Char} : ∀ {l : PyStr}, (∀ x ∈ l, x ≠ c) → pySplit c l = [l] := by
  intro l
  induction l with
  | nil => intro _; rfl
  | cons x xs ih =>
    intro h
    have hx : x ≠ c := h x (by simp)
    rw [pySplit, if_neg hx, ih (fun a ha => h a (by simp [ha]))]

lemma pySplit_append_sep {c : Char} : ∀ {l : PyStr} (rest : PyStr),
    (∀ x ∈ l, x ≠ c) → pySplit c (l ++ c :: rest) = l :: pySplit c rest := by
  intro l
  induction l with
  | nil => intro rest _; simp [pySplit]
  | cons x xs ih =>
    intro rest h
    have hx : x ≠ c := h x (by simp)
    simp only [List.cons_append]
    rw [pySplit, if_neg hx, ih rest (fun a ha => h a (by simp [ha]))]

lemma pySplit_joinSep {c : Char} : ∀ (parts : List PyStr), parts ≠ [] →
    (∀ p ∈ parts, ∀ x ∈ p, x ≠ c) → pySplit c (joinSep c parts) = parts := by
  intro parts
  induction parts with
  | nil => intro h; cases h rfl
  | cons p ps ih =>
    intro _ hall
    cases ps with
    | nil =>
      rw [joinSep]
      exact pySplit_nin (hall p (by simp))
    | cons q qs =>
      rw [joinSep, pySplit_append_sep _ (hall p (by simp)),
        ih (by simp) (fun a ha => hall a (by simp [ha]))]

lemma filter_nonempty_all (parts : List PyStr) (h : ∀ p ∈ parts, p ≠ []) :
    parts.filter (fun p => !p.isEmpty) = parts := by
  induction parts with
  | nil => rfl
  | cons p ps ih =>
    have hp : p ≠ [] := h p (by simp)
    have hp2 : p.isEmpty = false := by
      cases p with
      | nil => cases hp rfl
      | cons a as => rfl
    rw [List.filter_cons]
    simp [hp2, ih (fun a ha => h a (by simp [ha]))]

lemma flatten_map_singleton {α β : Type} (f : α → β) (l : List α) :
    (l.map (fun a => [f a])).flatten = l.map f := by
  induction l with
  | nil => rfl
  | cons x xs ih => simp [ih]

/-
Character-class facts about rendered grammar fragments.
-/

lemma two_all_digit {n : Nat} (h100 : n < 100) : ∀ c ∈ two n, c.isDigit = true := by
  intro c hc
  simp only [two, List.mem_cons, List.mem_singleton] at hc
  rcases hc with hc | hc | hc
  · rw [hc]; exact digitChar_isDigit (by omega)
  · rw [hc]; exact digitChar_isDigit (Nat.mod_lt _ (by omega))
  · cases hc

lemma specEvent_chars_isC2 (e : SpecEvent) : ∀ c ∈ e.chars, isC2 c = true := by
  cases e <;> decide

lemma specTime_chars_isC2 {t : SpecTime} (hw : t.Wf) : ∀ c ∈ t.chars, isC2 c = true := by
  cases t with
  | fixed hh mm =>
    obtain ⟨h1, h2⟩ := hw
    intro c hc
    simp only [SpecTime.chars, List.mem_append] at hc
    rcases hc with hc | hc
    · exact isC2_of_isDigit (two_all_digit (by omega) c hc)
    · exact isC2_of_isDigit (two_all_digit (by omega) c hc)
  | solarNeg hh mm e =>
    obtain ⟨h1, h2⟩ := hw
    intro c hc
    simp only [SpecTime.chars, List.mem_append] at hc
    rcases hc with (hc | hc) | hc
    · exact isC2_of_isDigit (two_all_digit (by omega) c hc)
    · exact isC2_of_isDigit (two_all_digit (by omega) c hc)
    · exact specEvent_chars_isC2 e c hc
  | solarPos e hh mm =>
    obtain ⟨h1, h2⟩ := hw
    intro c hc
    simp only [SpecTime.chars, List.mem_append] at hc
    rcases hc with (hc | hc) | hc
    · exact specEvent_chars_isC2 e c hc
    · exact isC2_of_isDigit (two_all_digit (by omega) c hc)
    · exact isC2_of_isDigit (two_all_digit (by omega) c hc)
  | solarPlain e => exact specEvent_chars_isC2 e

lemma specTime_chars_ne_nil (t : SpecTime) : t.chars ≠ [] := by
  cases t with
  | fixed hh mm => simp [SpecTime.chars, two]
  | solarNeg hh mm e => simp [SpecTime.chars, two]
  | solarPos e hh mm => cases e <;> simp [SpecTime.chars, two, SpecEvent.chars]
  | solarPlain e => cases e <;> simp [SpecTime.chars, SpecEvent.chars]

lemma pyStr_nin_A (n : Nat) : ∀ c ∈ pyStr n, c ≠ 'A' := fun c hc =>
  ne_of_isDigit (pyStr_all_digit n c hc) (by decide)

lemma joinSep_all_isC4 : ∀ (parts : List PyStr),
    (∀ p ∈ parts, ∀ c ∈ p, c.isDigit = true) →
    ∀ c ∈ joinSep 'A' parts, isC4 c = true := by
  intro parts
  induction parts with
  | nil => intro _ c hc; cases hc
  | cons p ps ih =>
    intro hall c hc
    cases ps with
    | nil =>
      rw [joinSep] at hc
      exact isC4_of_isDigit (hall p (by simp) c hc)
    | cons q qs =>
      rw [joinSep] at hc
      simp only [List.mem_append, List.mem_cons] at hc
      rcases hc with hc | hc | hc
      · exact isC4_of_isDigit (hall p (by simp) c hc)
      · rw [hc]; decide
      · exact ih (fun a ha => hall a (by simp [ha])) c hc

lemma acts_all_isC4 (acts : List Nat) :
    ∀ c ∈ joinSep 'A' (acts.map pyStr), isC4 c = true :=
  joinSep_all_isC4 _ (by
    intro p hp c hc
    simp only [List.mem_map] at hp
    rcases hp with ⟨n, _, hn⟩
    rw [← hn] at hc
    exact pyStr_all_digit n c hc)

lemma g4ok_acts (acts : List Nat) :
    g4ok ('A' :: joinSep 'A' (acts.map pyStr)) = true := by
  simp only [g4ok, List.isEmpty, Bool.not_false, Bool.true_and, List.all]
  rw [Bool.and_eq_true]
  constructor
  · decide
  · rw [List.all_eq_true]
    exact acts_all_isC4 acts

/-
The regex match on grammar-valid strings.
-/

lemma length_succ_of_ne_nil {l : PyStr} (h : l ≠ []) : ∃ m, l.length = m + 1 := by
  cases l with
  | nil => exact absurd rfl h
  | cons a as => exact ⟨as.length, rfl⟩

lemma tryTail_with_end (t2c acts : PyStr) (h2 : ∀ c ∈ t2c, isC2 c = true)
    (hne : t2c ≠ []) (hg4 : g4ok ('A' :: acts) = true) :
    tryTail ('T' :: (t2c ++ 'A' :: acts)) = some (some t2c, 'A' :: acts) := by
  have e0 : tryTail ('T' :: (t2c ++ 'A' :: acts)) =
      (tryG3 (t2c ++ 'A' :: acts) (((t2c ++ 'A' :: acts).takeWhile isC2).length)).orElse
        (fun _ => tryG3 ('T' :: (t2c ++ 'A' :: acts))
          ((('T' :: (t2c ++ 'A' :: acts)).takeWhile isC2).length)) := rfl
  rw [e0, takeWhile_append_stop _ _ _ h2 (by decide)]
  obtain ⟨k, hk⟩ := length_succ_of_ne_nil hne
  rw [hk, tryG3]
  have hdrop : (t2c ++ 'A' :: acts).drop (k + 1) = 'A' :: acts := by
    rw [← hk]; exact drop_len_append _ _
  have htake : (t2c ++ 'A' :: acts).take (k + 1) = t2c := by
    rw [← hk]; exact take_len_append _ _
  rw [hdrop, htake, hg4]
  simp [Option.orElse]

lemma tryTail_no_end (acts : PyStr) (hg4 : g4ok ('A' :: acts) = true) :
    tryTail ('A' :: acts) = some (none, 'A' :: acts) := by
  have e0 : tryTail ('A' :: acts) =
      tryG3 ('A' :: acts) ((('A' :: acts).takeWhile isC2).length) := rfl
  have e1 : ('A' :: acts).takeWhile isC2 = [] := by
    simp [List.takeWhile, isC2]
  rw [e0, e1]
  simp [tryG3, hg4]

lemma tryG2_exact (t1c : PyStr) (y : Char) (ys : PyStr) (r : Option PyStr × PyStr)
    (h2 : ∀ c ∈ t1c, isC2 c = true) (hne : t1c ≠ []) (hy : isC2 y = false)
    (hres : tryTail (y :: ys) = some r) :
    tryG2 (t1c ++ y :: ys) (((t1c ++ y :: ys).takeWhile isC2).length) =
      some (t1c, r) := by
  rw [takeWhile_append_stop _ _ _ h2 hy]
  obtain ⟨m, hm⟩ := length_succ_of_ne_nil hne
  rw [hm, tryG2]
  have hdrop : (t1c ++ y :: ys).drop (m + 1) = y :: ys := by
    rw [← hm]; exact drop_len_append _ _
  have htake : (t1c ++ y :: ys).take (m + 1) = t1c := by
    rw [← hm]; exact take_len_append _ _
  rw [hdrop, hres, htake]

lemma entryMatch_valid (g : SpecEntry) (hw : g.Wf) :
    entryMatch g.chars = some (g.days.map Nat.digitChar, g.t1.chars,
      g.t2.map SpecTime.chars, 'A' :: joinSep 'A' (g.acts.map pyStr)) := by
  obtain ⟨hdays, hday6, hacts, hwt1, hwt2⟩ := hw
  have hdall : ∀ c ∈ g.days.map Nat.digitChar, Char.isDigit c = true := by
    intro c hc
    simp only [List.mem_map] at hc
    obtain ⟨d, hd, rfl⟩ := hc
    exact digitChar_isDigit (by have := hday6 d hd; omega)
  have hdne : (g.days.map Nat.digitChar).isEmpty = false := by
    cases hds : g.days with
    | nil => exact absurd hds hdays
    | cons d ds => rfl
  have ht1c := specTime_chars_isC2 hwt1
  have ht1ne := specTime_chars_ne_nil g.t1
  have hg4 := g4ok_acts g.acts
  cases ht2 : g.t2 with
  | none =>
    have hchars : g.chars = 'D' :: (g.days.map Nat.digitChar ++
        'T' :: (g.t1.chars ++ 'A' :: joinSep 'A' (g.acts.map pyStr))) := by
      simp [SpecEntry.chars, ht2]
    rw [hchars]
    have e0 : entryMatch ('D' :: (g.days.map Nat.digitChar ++
        'T' :: (g.t1.chars ++ 'A' :: joinSep 'A' (g.acts.map pyStr)))) =
        (if ((g.days.map Nat.digitChar ++
            'T' :: (g.t1.chars ++ 'A' :: joinSep 'A' (g.acts.map pyStr))).takeWhile
              Char.isDigit).isEmpty then none
         else
          (entryTimes ((g.days.map Nat.digitChar ++
            'T' :: (g.t1.chars ++ 'A' :: joinSep 'A' (g.acts.map pyStr))).dropWhile
              Char.isDigit)).map
            (fun r => ((g.days.map Nat.digitChar ++
              'T' :: (g.t1.chars ++ 'A' :: joinSep 'A' (g.acts.map pyStr))).takeWhile
                Char.isDigit, r))) := rfl
    rw [e0, takeWhile_append_stop _ _ _ hdall (by decide),
      dropWhile_append_stop _ _ _ hdall (by decide), hdne]
    have e1 : entryTimes ('T' :: (g.t1.chars ++ 'A' :: joinSep 'A' (g.acts.map pyStr))) =
        tryG2 (g.t1.chars ++ 'A' :: joinSep 'A' (g.acts.map pyStr))
          (((g.t1.chars ++ 'A' :: joinSep 'A' (g.acts.map pyStr)).takeWhile isC2).length) :=
      rfl
    rw [e1, tryG2_exact _ _ _ _ ht1c ht1ne (by decide) (tryTail_no_end _ hg4)]
    rfl
  | some t =>
    have hwt := hwt2 t ht2
    have ht2c := specTime_chars_isC2 hwt
    have ht2ne := specTime_chars_ne_nil t
    have hchars : g.chars = 'D' :: (g.days.map Nat.digitChar ++
        'T' :: (g.t1.chars ++ 'T' :: (t.chars ++
          'A' :: joinSep 'A' (g.acts.map pyStr)))) := by
      simp [SpecEntry.chars, ht2]
    rw [hchars]
    have e0 : entryMatch ('D' :: (g.days.map Nat.digitChar ++
        'T' :: (g.t1.chars ++ 'T' :: (t.chars ++
          'A' :: joinSep 'A' (g.acts.map pyStr))))) =
        (if ((g.days.map Nat.digitChar ++
            'T' :: (g.t1.chars ++ 'T' :: (t.chars ++
              'A' :: joinSep 'A' (g.acts.map pyStr)))).takeWhile Char.isDigit).isEmpty
          then none
         else
          (entryTimes ((g.days.map Nat.digitChar ++
            'T' :: (g.t1.chars ++ 'T' :: (t.chars ++
              'A' :: joinSep 'A' (g.acts.map pyStr)))).dropWhile Char.isDigit)).map
            (fun r => ((g.days.map Nat.digitChar ++
              'T' :: (g.t1.chars ++ 'T' :: (t.chars ++
                'A' :: joinSep 'A' (g.acts.map pyStr)))).takeWhile Char.isDigit, r))) := rfl
    rw [e0, takeWhile_append_stop _ _ _ hdall (by decide),
      dropWhile_append_stop _ _ _ hdall (by decide), hdne]
    have e1 : entryTimes ('T' :: (g.t1.chars ++ 'T' :: (t.chars ++
        'A' :: joinSep 'A' (g.acts.map pyStr)))) =
        tryG2 (g.t1.chars ++ 'T' :: (t.chars ++ 'A' :: joinSep 'A' (g.acts.map pyStr)))
          (((g.t1.chars ++ 'T' :: (t.chars ++
            'A' :: joinSep 'A' (g.acts.map pyStr))).takeWhile isC2).length) := rfl
    rw [e1, tryG2_exact _ _ _ _ ht1c ht1ne (by decide)
      (tryTail_with_end _ _ ht2c ht2ne hg4)]
    rfl

/-
Decoding and encoding of the individual time segments.
-/

lemma digit_beq_S {c : Char} (h : c.isDigit = true) : (c == 'S') = false := by
  rw [beq_eq_false_iff_ne]
  exact ne_of_isDigit h (by decide)

lemma import_time_fixed {hh mm : Nat} (h1 : hh < 24) (h2 : mm < 60) :
    import_time_input (SpecTime.fixed hh mm).chars = .ok (tdOf (.fixed hh mm)) := by
  have da : (Nat.digitChar (hh / 10)).isDigit = true := digitChar_isDigit (by omega)
  have db : (Nat.digitChar (hh % 10)).isDigit = true := digitChar_isDigit (by omega)
  have dc : (Nat.digitChar (mm / 10)).isDigit = true := digitChar_isDigit (by omega)
  have dd : (Nat.digitChar (mm % 10)).isDigit = true := digitChar_isDigit (by omega)
  simp [SpecTime.chars, two, tdOf, import_time_input, fixedTimeMatch, da, db, dc, dd]

lemma import_time_solarNeg {hh mm : Nat} {e : SpecEvent} (h1 : hh < 24) (h2 : mm < 60)
    (he : e = SpecEvent.SR ∨ e = SpecEvent.SS) :
    import_time_input (SpecTime.solarNeg hh mm e).chars = .ok (tdOf (.solarNeg hh mm e)) := by
  have da : (Nat.digitChar (hh / 10)).isDigit = true := digitChar_isDigit (by omega)
  have db : (Nat.digitChar (hh % 10)).isDigit = true := digitChar_isDigit (by omega)
  have dc : (Nat.digitChar (mm / 10)).isDigit = true := digitChar_isDigit (by omega)
  have dd : (Nat.digitChar (mm % 10)).isDigit = true := digitChar_isDigit (by omega)
  have ba := digit_beq_S da
  rcases he with rfl | rfl <;>
    simp [SpecTime.chars, SpecEvent.chars, two, tdOf, import_time_input, fixedTimeMatch,
      sunTimeMatch, sunSuffix, isSRDUW, da, db, dc, dd, ba, pystr]

lemma import_time_solarPos {hh mm : Nat} {e : SpecEvent} (h1 : hh < 24) (h2 : mm < 60)
    (he : e = SpecEvent.SR ∨ e = SpecEvent.SS) :
    import_time_input (SpecTime.solarPos e hh mm).chars = .ok (tdOf (.solarPos e hh mm)) := by
  have da : (Nat.digitChar (hh / 10)).isDigit = true := digitChar_isDigit (by omega)
  have db : (Nat.digitChar (hh % 10)).isDigit = true := digitChar_isDigit (by omega)
  have dc : (Nat.digitChar (mm / 10)).isDigit = true := digitChar_isDigit (by omega)
  have dd : (Nat.digitChar (mm % 10)).isDigit = true := digitChar_isDigit (by omega)
  rcases he with rfl | rfl <;>
    simp [SpecTime.chars, SpecEvent.chars, two, tdOf, import_time_input, fixedTimeMatch,
      sunTimeMatch, sunSuffix, isSRDUW, da, db, dc, dd, pystr]

lemma import_time_valid {t : SpecTime} (hw : t.Wf) (him : t.Importable) :
    import_time_input t.chars = .ok (tdOf t) := by
  cases t with
  | fixed hh mm => exact import_time_fixed hw.1 hw.2
  | solarNeg hh mm e => exact import_time_solarNeg hw.1 hw.2 him
  | solarPos e hh mm => exact import_time_solarPos hw.1 hw.2 him
  | solarPlain e => cases him

lemma removeChar_append (c : Char) (l1 l2 : PyStr) :
    removeChar c (l1 ++ l2) = removeChar c l1 ++ removeChar c l2 := by
  simp [removeChar, List.filter_append]

lemma removeChar_colon_two {hh mm : Nat} (h1 : hh < 100) (h2 : mm < 100) :
    removeChar ':' (two hh ++ ':' :: two mm) = two hh ++ two mm := by
  have ha : ∀ x ∈ two hh, x ≠ ':' :=
    fun x hx => ne_of_isDigit (two_all_digit h1 x hx) (by decide)
  have hb : ∀ x ∈ two mm, x ≠ ':' :=
    fun x hx => ne_of_isDigit (two_all_digit h2 x hx) (by decide)
  rw [removeChar_append, removeChar_nin ha, removeChar_cons_self, removeChar_nin hb]

lemma export_time_tdOf {t : SpecTime} (hw : t.Wf) (him : t.Importable) :
    export_time (tdOf t) = .ok t.chars := by
  cases t with
  | fixed hh mm =>
    obtain ⟨h1, h2⟩ := hw
    simp only [tdOf, export_time]
    rw [removeChar_colon_two (by omega) (by omega)]
    rfl
  | solarNeg hh mm e =>
    obtain ⟨h1, h2⟩ := hw
    have hminus : ∀ x ∈ two hh ++ ':' :: two mm, x ≠ '-' := by
      intro x hx
      simp only [List.mem_append, List.mem_cons] at hx
      rcases hx with hx | hx | hx
      · exact ne_of_isDigit (two_all_digit (by omega) x hx) (by decide)
      · rw [hx]; decide
      · exact ne_of_isDigit (two_all_digit (by omega) x hx) (by decide)
    have hplus : hasChar '+' ('-' :: (two hh ++ ':' :: two mm)) = false := by
      apply hasChar_nin
      intro x hx
      simp only [List.mem_cons, List.mem_append] at hx
      rcases hx with hx | hx | hx | hx
      · rw [hx]; decide
      · exact ne_of_isDigit (two_all_digit (by omega) x hx) (by decide)
      · rw [hx]; decide
      · exact ne_of_isDigit (two_all_digit (by omega) x hx) (by decide)
    have hrm : removeChar '-' (two hh ++ ':' :: two mm) = two hh ++ ':' :: two mm :=
      removeChar_nin hminus
    have hrc : removeChar ':' (two hh ++ ':' :: two mm) = two hh ++ two mm :=
      removeChar_colon_two (by omega) (by omega)
    rcases him with rfl | rfl <;>
      simp [tdOf, export_time, SpecTime.chars, SpecEvent.chars, hplus,
        removeChar_cons_self, hrm, hrc, pystr]
  | solarPos e hh mm =>
    obtain ⟨h1, h2⟩ := hw
    have hplus2 : ∀ x ∈ two hh ++ ':' :: two mm, x ≠ '+' := by
      intro x hx
      simp only [List.mem_append, List.mem_cons] at hx
      rcases hx with hx | hx | hx
      · exact ne_of_isDigit (two_all_digit (by omega) x hx) (by decide)
      · rw [hx]; decide
      · exact ne_of_isDigit (two_all_digit (by omega) x hx) (by decide)
    have hrp : removeChar '+' (two hh ++ ':' :: two mm) = two hh ++ ':' :: two mm :=
      removeChar_nin hplus2
    have hrc : removeChar ':' (two hh ++ ':' :: two mm) = two hh ++ two mm :=
      removeChar_colon_two (by omega) (by omega)
    rcases him with rfl | rfl <;>
      simp [tdOf, export_time, SpecTime.chars, SpecEvent.chars, hasChar_cons_self,
        removeChar_cons_self, hrp, hrc, pystr]
  | solarPlain e => cases him

/-
Round trip of the day digits and the action-index list.
-/

lemma days_import (l : List Nat) (h : ∀ d ∈ l, d ≤ 6) :
    (l.map Nat.digitChar).map (fun c => pyInt [c]) = l := by
  induction l with
  | nil => rfl
  | cons d ds ih =>
    simp only [List.map_cons, List.cons.injEq]
    constructor
    · exact pyInt_digitChar (by have := h d (by simp); omega)
    · exact ih (fun a ha => h a (by simp [ha]))

lemma map_pyInt_pyStr (l : List Nat) : (l.map pyStr).map pyInt = l := by
  induction l with
  | nil => rfl
  | cons n ns ih => simp [pyInt_pyStr, ih]

lemma acts_import (acts : List Nat) (hne : acts ≠ []) :
    ((pySplit 'A' ('A' :: joinSep 'A' (acts.map pyStr))).filter
      (fun p => !p.isEmpty)).map pyInt = acts := by
  have h1 : pySplit 'A' ('A' :: joinSep 'A' (acts.map pyStr)) =
      [] :: pySplit 'A' (joinSep 'A' (acts.map pyStr)) := by
    simp [pySplit]
  have h2 : pySplit 'A' (joinSep 'A' (acts.map pyStr)) = acts.map pyStr :=
    pySplit_joinSep _ (by simp [hne])
      (by
        intro p hp x hx
        simp only [List.mem_map] at hp
        obtain ⟨n, _, rfl⟩ := hp
        exact pyStr_nin_A n x hx)
  rw [h1, h2, List.filter_cons]
  simp only [List.isEmpty_nil, Bool.not_true, Bool.false_eq_true, if_false]
  rw [filter_nonempty_all _ (by
    intro p hp
    simp only [List.mem_map] at hp
    obtain ⟨n, _, rfl⟩ := hp
    exact pyStr_ne_nil n)]
  exact map_pyInt_pyStr acts

lemma days_render (l : List Nat) (h : ∀ d ∈ l, d ≤ 6) :
    (l.map pyStr).flatten = l.map Nat.digitChar := by
  induction l with
  | nil => rfl
  | cons d ds ih =>
    have hd : pyStr d = [Nat.digitChar d] := pyStr_lt10 (by have := h d (by simp); omega)
    simp only [List.map_cons, List.flatten_cons, hd]
    rw [ih (fun a ha => h a (by simp [ha]))]
    rfl

/-
Round trip of a whole entry.
-/

lemma importEntry_valid (g : SpecEntry) (hw : g.Wf) (him : g.Importable) :
    importEntry g.chars = .ok (entryOf g) := by
  have h0 := entryMatch_valid g hw
  obtain ⟨hdays, hday6, hacts, hwt1, hwt2⟩ := hw
  obtain ⟨him1, him2⟩ := him
  cases ht2 : g.t2 with
  | none =>
    rw [ht2] at h0
    simp [importEntry, h0, import_time_valid hwt1 him1, entryOf, ht2,
      days_import g.days hday6, acts_import g.acts hacts]
  | some t =>
    have hwt := hwt2 t ht2
    have himt := him2 t ht2
    rw [ht2] at h0
    simp [importEntry, h0, import_time_valid hwt1 him1, import_time_valid hwt himt,
      entryOf, ht2, days_import g.days hday6, acts_import g.acts hacts]

lemma exportEntry_valid (g : SpecEntry) (hw : g.Wf) (him : g.Importable) :
    exportEntry (entryOf g) = .ok g.chars := by
  obtain ⟨hdays, hday6, hacts, hwt1, hwt2⟩ := hw
  obtain ⟨him1, him2⟩ := him
  cases ht2 : g.t2 with
  | none =>
    simp [exportEntry, entryOf, ht2, export_time_tdOf hwt1 him1,
      days_render g.days hday6, SpecEntry.chars]
  | some t =>
    have hwt := hwt2 t ht2
    have himt := him2 t ht2
    simp [exportEntry, entryOf, ht2, export_time_tdOf hwt1 him1,
      export_time_tdOf hwt himt, days_render g.days hday6, SpecEntry.chars, Except.map]

/-
Helper lemmas for the resolver claims.
-/

lemma resolveAction_keyerror {a : PyDict} {s : PyStr} (h4 : lookup a "service" = some s)
    (h5 : hasChar '.' s = false) (h6 : lookup a "entity" = none) :
    resolveAction a = .error (pystr "KeyError: entity_id") := by
  simp [resolveAction, h4, h5, h6]

lemma lookup_none_of {d : PyDict} {k : String} (h : ∀ p ∈ d, p.1 ≠ k) :
    lookup d k = none := by
  have hf : d.find? (fun p => p.1 == k) = none :=
    List.find?_eq_none.mpr (fun x hx => by simp [h x hx])
  simp [lookup, hf]

lemma filter_keys_keep {rest : PyDict}
    (h : ∀ p ∈ rest, p.1 ≠ "service" ∧ p.1 ≠ "entity" ∧ p.1 ≠ "entity_id") :
    rest.filter (fun p =>
      !(p.1 == "service") && !(p.1 == "entity") && !(p.1 == "entity_id")) = rest := by
  apply List.filter_eq_self.mpr
  intro p hp
  obtain ⟨h1, h2, h3⟩ := h p hp
  simp [h1, h2, h3]

lemma service_calls_skip (acts : List PyDict) (refs : List Nat) :
    service_calls_aux acts refs =
      service_calls_aux acts (refs.filter (fun r => decide (r < acts.length))) := by
  induction refs with
  | nil => rfl
  | cons r rs ih =>
    by_cases hr : r < acts.length
    · rw [List.filter_cons, if_pos (by simpa using hr)]
      simp only [service_calls_aux, dif_pos hr]
      cases hra : resolveAction (acts.get ⟨r, hr⟩) with
      | error m => rfl
      | ok c => rw [ih]
    · rw [List.filter_cons, if_neg (by simpa using hr)]
      simp only [service_calls_aux, dif_neg hr]
      exact ih

lemma service_calls_all_ok (acts : List PyDict) : ∀ (refs : List Nat) (calls : List Call),
    (∀ r ∈ refs, r < acts.length) →
    List.Forall₂ (fun r c => ∃ a, acts[r]? = some a ∧ resolveAction a = .ok c) refs calls →
    service_calls_aux acts refs = .ok calls := by
  intro refs
  induction refs with
  | nil =>
    intro calls _ hf
    cases hf
    rfl
  | cons r rs ih =>
    intro calls hall hf
    cases hf with
    | cons hrc hrest =>
      obtain ⟨a, ha1, ha2⟩ := hrc
      have hr : r < acts.length := hall r (by simp)
      have hget : acts.get ⟨r, hr⟩ = a :=
        Option.some.inj ((List.getElem?_eq_getElem hr).symm.trans ha1)
      simp only [service_calls_aux, dif_pos hr, hget, ha2]
      rw [ih _ (fun x hx => hall x (by simp [hx])) hrest]

/-
Helper lemmas for the closest-entry claim.
-/

lemma foldl_min_mem (now : Int) : ∀ (l : List Int) (a : Int),
    l.foldl (fun x y => if x - now < y - now then x else y) a = a ∨
    l.foldl (fun x y => if x - now < y - now then x else y) a ∈ l := by
  intro l
  induction l with
  | nil => intro a; left; rfl
  | cons b bs ih =>
    intro a
    rw [List.foldl_cons]
    rcases ih (if a - now < b - now then a else b) with h | h
    · rw [h]
      by_cases hc : a - now < b - now
      · left; rw [if_pos hc]
      · right; rw [if_neg hc]; exact List.mem_cons_self b bs
    · right; exact List.mem_cons_of_mem b h

lemma foldl_min_le (now : Int) : ∀ (l : List Int) (a : Int),
    l.foldl (fun x y => if x - now < y - now then x else y) a ≤ a ∧
    ∀ x ∈ l, l.foldl (fun x y => if x - now < y - now then x else y) a ≤ x := by
  intro l
  induction l with
  | nil =>
    intro a
    refine ⟨le_refl a, ?_⟩
    intro x hx
    cases hx
  | cons b bs ih =>
    intro a
    rw [List.foldl_cons]
    have hfab : (if a - now < b - now then a else b) ≤ a ∧
        (if a - now < b - now then a else b) ≤ b := by
      by_cases hc : a - now < b - now
      · rw [if_pos hc]; omega
      · rw [if_neg hc]; omega
    obtain ⟨ih1, ih2⟩ := ih (if a - now < b - now then a else b)
    refine ⟨le_trans ih1 hfab.1, ?_⟩
    intro x hx
    rcases List.mem_cons.mp hx with rfl | hx
    · exact le_trans ih1 hfab.2
    · exact ih2 x hx

lemma findFirstIdx_mem : ∀ (l : List Int) (v : Int), v ∈ l →
    ∃ j, findFirstIdx l v = some j := by
  intro l
  induction l with
  | nil => intro v hv; cases hv
  | cons x xs ih =>
    intro v hv
    by_cases hx : x = v
    · exact ⟨0, by simp [findFirstIdx, hx]⟩
    · have hv2 : v ∈ xs := by
        rcases List.mem_cons.mp hv with rfl | hm
        · exact absurd rfl hx
        · exact hm
      obtain ⟨j, hj⟩ := ih v hv2
      exact ⟨j + 1, by simp [findFirstIdx, hx, hj]⟩

lemma findFirstIdx_spec : ∀ (l : List Int) (v : Int) (j : Nat),
    findFirstIdx l v = some j →
    j < l.length ∧ l.getD j 0 = v ∧ ∀ k, k < j → l.getD k 0 ≠ v := by
  intro l
  induction l with
  | nil => intro v j h; cases h
  | cons x xs ih =>
    intro v j h
    by_cases hx : x = v
    · simp only [findFirstIdx, if_pos hx] at h
      injection h with hh
      rw [← hh]
      refine ⟨by simp, by simpa using hx, ?_⟩
      intro k hk
      omega
    · simp only [findFirstIdx, if_neg hx, Option.map_eq_some'] at h
      obtain ⟨j2, hj2, rfl⟩ := h
      obtain ⟨hl, hv, hp⟩ := ih v j2 hj2
      refine ⟨by simpa using hl, by simpa using hv, ?_⟩
      intro k hk
      cases k with
      | zero => simpa using hx
      | succ k2 =>
        have : xs.getD k2 0 ≠ v := hp k2 (by omega)
        simpa using this

lemma getD_mem_int : ∀ (l : List Int) (k : Nat), k < l.length → l.getD k 0 ∈ l := by
  intro l
  induction l with
  | nil => intro k hk; cases hk
  | cons x xs ih =>
    intro k hk
    cases k with
    | zero => simp
    | succ k2 =>
      have := ih k2 (by simpa using hk)
      simpa using List.mem_cons_of_mem x this

/-
Helper lemma for the non-atomic-import claim.
-/

lemma importEntries_good {σ : Type} : ∀ (gs : List (PyStr × Entry)) (st : DataCollection σ)
    (tl : List PyStr), (∀ p ∈ gs, importEntry p.1 = .ok p.2) →
    importEntries st (gs.map (fun p => p.1) ++ tl) =
      importEntries { st with entries := st.entries ++ gs.map (fun p => p.2) } tl := by
  intro gs
  induction gs with
  | nil =>
    intro st tl _
    simp
  | cons p ps ih =>
    intro st tl hall
    simp only [List.map_cons, List.cons_append, importEntries, hall p (by simp)]
    simp only [List.append_eq]
    rw [ih _ _ (fun q hq => hall q (by simp [hq]))]
    have hasc : (st.entries ++ [p.2]) ++ ps.map (fun q => q.2) =
        st.entries ++ (p.2 :: ps.map (fun q => q.2)) := by
      simp
    simp [hasc]

/-
The claims.
-/

/-- C1 (amended).  For every syntactically valid compact entry string in
which every SolarTime segment carries exactly one of OffsetPrefix /
OffsetSuffix and an event code starting with `S` (`SR` or `SS`),
re-encoding the decoded entry reproduces the string exactly:
`export_data` applied to the result of `import_data` on the singleton
entry list yields the same singleton list back.  (The unrestricted claim
is refuted by `c1_counterexample`: an offset-less solar segment decodes
to the junk offset `"+None:None"` and re-encodes differently, and `DW` /
`DU` segments do not decode at all.) -/
theorem c1_roundtrip_amended (g : SpecEntry) (hw : g.Wf) (him : g.Importable) :
    (import_data (newDC Unit) ⟨some [], some [g.chars], none, none⟩).1 = .ok true ∧
    export_data (import_data (newDC Unit) ⟨some [], some [g.chars], none, none⟩).2 =
      .ok ⟨[g.chars], []⟩ := by
  have h1 := importEntry_valid g hw him
  have h2 := exportEntry_valid g hw him
  have hst : import_data (newDC Unit) ⟨some [], some [g.chars], none, none⟩ =
      (.ok true, { newDC Unit with actions := [], entries := [entryOf g] }) := by
    simp [import_data, importEntries, h1, newDC]
  rw [hst]
  exact ⟨rfl, by simp [export_data, exportEntries, h2]⟩

/-- C1 counterexample.  The string `"D0TSRA0"` is grammar-valid (days
`[0]`, SolarTime `SR` with both offsets absent, action list `[0]`), but
decoding and re-encoding it yields `"D0TSRNoneNoneA0"`, not the original
string: the source formats the absent offset regex groups as the Python
string `"None"`.  Moreover the grammar-valid string `"D0TDW0030A0"`
(dawn with a negative offset) does not even decode: the import raises
`failed to parse time DW0030`. -/
theorem c1_counterexample :
    (SpecEntry.mk [0] (SpecTime.solarPlain SpecEvent.SR) none [0]).Wf ∧
    (SpecEntry.mk [0] (SpecTime.solarPlain SpecEvent.SR) none [0]).chars = pystr "D0TSRA0" ∧
    export_data (import_data (newDC Unit) ⟨some [], some [pystr "D0TSRA0"], none, none⟩).2 =
      .ok ⟨[pystr "D0TSRNoneNoneA0"], []⟩ ∧
    pystr "D0TSRNoneNoneA0" ≠ pystr "D0TSRA0" ∧
    (SpecEntry.mk [0] (SpecTime.solarPos SpecEvent.DW 0 30) none [0]).Wf ∧
    (SpecEntry.mk [0] (SpecTime.solarPos SpecEvent.DW 0 30) none [0]).chars =
      pystr "D0TDW0030A0" ∧
    (import_data (newDC Unit) ⟨some [], some [pystr "D0TDW0030A0"], none, none⟩).1 =
      .error (pystr "failed to parse time DW0030") := by
  refine ⟨?_, by decide, by decide, by decide, ?_, by decide, by decide⟩
  · refine ⟨by decide, by decide, by decide, trivial, fun t ht => by cases ht⟩
  · refine ⟨by decide, by decide, by decide, ?_, fun t ht => by cases ht⟩
    show 0 < 24 ∧ 30 < 60
    exact ⟨by decide, by decide⟩

/-- C1 witness: the amended round trip evaluated on the concrete valid
string `"D135T0700T1900A0A1"`. -/
theorem c1_witness :
    (import_data (newDC Unit) ⟨some [],
      some [(SpecEntry.mk [1, 3, 5] (SpecTime.fixed 7 0) (some (SpecTime.fixed 19 0))
        [0, 1]).chars], none, none⟩).1 = .ok true ∧
    export_data (import_data (newDC Unit) ⟨some [],
      some [(SpecEntry.mk [1, 3, 5] (SpecTime.fixed 7 0) (some (SpecTime.fixed 19 0))
        [0, 1]).chars], none, none⟩).2 =
      .ok ⟨[(SpecEntry.mk [1, 3, 5] (SpecTime.fixed 7 0) (some (SpecTime.fixed 19 0))
        [0, 1]).chars], []⟩ :=
  c1_roundtrip_amended _
    ⟨by decide, by decide, by decide, ⟨by decide, by decide⟩,
      fun t ht => by cases ht; exact ⟨by decide, by decide⟩⟩
    ⟨trivial, fun t ht => by cases ht; trivial⟩

/-- C2 (code bug).  The source means to support dawn and dusk: its
`import_data` has explicit branches for the event codes `DW` and `DU`,
and `export_data` emits exactly those codes.  But `SunTimePattern` only
accepts codes of the shape `S[SRDUW]`, so those branches are unreachable
and an exported dawn entry cannot be decoded again: encoding the dawn
entry below yields `"D0TDW0030A0"`, whose re-import raises
`failed to parse time DW0030` instead of reproducing the entry, against
the spec's round-trip requirement `decode(encode(e)) = e`. -/
theorem c2_dawn_code_bug :
    exportEntry ⟨⟨none, some (pystr "dawn"), some (pystr "+00:30")⟩, none, [0], [0]⟩ =
      .ok (pystr "D0TDW0030A0") ∧
    importEntry (pystr "D0TDW0030A0") =
      .error (.timeErr (pystr "failed to parse time DW0030")) ∧
    (import_data (newDC Unit) ⟨some [], some [pystr "D0TDW0030A0"], none, none⟩).1 =
      .error (pystr "failed to parse time DW0030") := by
  exact ⟨by decide, by decide, by decide⟩

/-- C3 (amended).  Resolving an entry whose first referenced action has a
service containing no `"."` and no entity raises an error rather than
completing normally: the source reads `call["entity_id"]`, a key that was
never set, so the call dies with a `KeyError`. -/
theorem c3_amended_keyerror (σ : Type) (st : DataCollection σ) (i : Nat) (e : Entry)
    (j : Nat) (rs : List Nat) (a : PyDict) (s : PyStr)
    (h1 : st.entries[i]? = some e) (h2 : e.actions = j :: rs)
    (h3 : st.actions[j]? = some a)
    (h4 : lookup a "service" = some s) (h5 : hasChar '.' s = false)
    (h6 : lookup a "entity" = none) :
    get_service_calls_for_entry st i = .error (pystr "KeyError: entity_id") := by
  have hj : j < st.actions.length := by
    by_contra hc
    rw [List.getElem?_eq_none (by omega)] at h3
    cases h3
  have hget : st.actions[j] = a :=
    Option.some.inj ((List.getElem?_eq_getElem hj).symm.trans h3)
  simp [get_service_calls_for_entry, h1, h2, service_calls_aux, dif_pos hj, hget,
    resolveAction_keyerror h4 h5 h6]

/-- C3 counterexample: the original claim says no error is raised; on the
concrete aggregate `dcNoDot` (one action `service = "turn_on"`, no
entity) the resolver does not complete normally but fails with the
`KeyError`. -/
theorem c3_counterexample :
    (∀ calls, get_service_calls_for_entry dcNoDot 0 ≠ .ok calls) ∧
    get_service_calls_for_entry dcNoDot 0 = .error (pystr "KeyError: entity_id") := by
  have h : get_service_calls_for_entry dcNoDot 0 = .error (pystr "KeyError: entity_id") := by
    decide
  refine ⟨?_, h⟩
  intro calls hc
  rw [h] at hc
  cases hc

/-- C3 witness: the amended theorem applied to the concrete aggregate
`dcNoDot`. -/
theorem c3_witness :
    get_service_calls_for_entry dcNoDot 0 = .error (pystr "KeyError: entity_id") :=
  c3_amended_keyerror Unit dcNoDot 0 entry0 0 [] [("service", pystr "turn_on")]
    (pystr "turn_on") (by decide) (by decide) (by decide) (by decide) (by decide)
    (by decide)

/-- C4.  `update_sun_data`: on first installation (no stored snapshot) it
stores the snapshot and returns `False`, whatever the entry argument; on
a later installation with an entry index it returns `True` exactly when
the absolute difference in seconds between the entry's next fire time
under the old snapshot and under the new one lies in the inclusive range
60..3600, and `False` otherwise, in particular below 60 and above 3600.
(`calculate_next_start_time` lives in `helpers.py`, outside this
snapshot, and is the abstract parameter `calcNext`.) -/
theorem c4_update_sun_data (σ : Type) (calcNext : Entry → Option σ → Int)
    (st : DataCollection σ) (sd : σ) :
    (∀ entry, st.sun_data = none →
      update_sun_data calcNext st sd entry = (.ok false, { st with sun_data := some sd })) ∧
    (∀ i od e, st.sun_data = some od → st.entries[i]? = some e →
      update_sun_data calcNext st sd (some i) =
        (.ok (decide (60 ≤ |calcNext e (some od) - calcNext e (some sd)| ∧
          |calcNext e (some od) - calcNext e (some sd)| ≤ 3600)), st)) := by
  constructor
  · intro entry h
    simp [update_sun_data, h]
  · intro i od e h1 h2
    simp only [update_sun_data, h1, get_timestamp_for_entry, h2]
    by_cases hc : 60 ≤ |calcNext e (some od) - calcNext e (some sd)| ∧
        |calcNext e (some od) - calcNext e (some sd)| ≤ 3600
    · simp [hc]
    · simp [hc]

/-- C4 witness: with the snapshot-as-timestamp fixture, a 100-second
drift reports `True`, a 30-second drift reports `False`, and a first
installation stores the snapshot and reports `False`. -/
theorem c4_witness :
    update_sun_data snapCalc dcSun 100 (some 0) = (.ok true, dcSun) ∧
    update_sun_data snapCalc dcSun 30 (some 0) = (.ok false, dcSun) ∧
    update_sun_data snapCalc (newDC Int) 5 none =
      (.ok false, { newDC Int with sun_data := some 5 }) := by
  have h1 := (c4_update_sun_data Int snapCalc dcSun 100).2 0 0 entry0 (by decide) (by decide)
  have h2 := (c4_update_sun_data Int snapCalc dcSun 30).2 0 0 entry0 (by decide) (by decide)
  have h3 := (c4_update_sun_data Int snapCalc (newDC Int) 5).1 none (by decide)
  refine ⟨?_, ?_, h3⟩
  · rw [h1]; decide
  · rw [h2]; decide

/-- C5 (frame).  Whenever a snapshot is already stored, `update_sun_data`
leaves the stored `sun_data` unchanged — also in the drift branch that
returns `True`, because the assignment in the source sits after
`return True` and never executes. -/
theorem c5_frame (σ : Type) (calcNext : Entry → Option σ → Int) (st : DataCollection σ)
    (sd : σ) (entry : Option Nat) (h : st.sun_data.isSome = true) :
    (update_sun_data calcNext st sd entry).2.sun_data = st.sun_data := by
  obtain ⟨d, hd⟩ := Option.isSome_iff_exists.mp h
  cases entry with
  | none => simp [update_sun_data, hd]
  | some i =>
    simp only [update_sun_data, hd]
    cases hx : get_timestamp_for_entry calcNext st i (some d) with
    | error m => simp [hd]
    | ok t1 =>
      cases hy : get_timestamp_for_entry calcNext st i (some sd) with
      | error m => simp [hd]
      | ok t2 =>
        by_cases hc : 60 ≤ |t1 - t2| ∧ |t1 - t2| ≤ 3600
        · simp [hc, hd]
        · simp [hc, hd]

/-- C5 witness: in the drift branch that reports `True` (100-second
drift on `dcSun`), the stored snapshot is untouched. -/
theorem c5_witness :
    (update_sun_data snapCalc dcSun 100 (some 0)).2.sun_data = dcSun.sun_data :=
  c5_frame Int snapCalc dcSun 100 (some 0) (by decide)

/-- C6.  Resolver domain inference: for an action holding a service and
an entity, a dot-less service is prefixed with the entity's domain (its
text before its own dot) while the entity is kept; conversely a dotted
service with a dot-less entity prefixes the entity with the service's
domain.  Concretely, `service = "turn_on"`, `entity = "light.kitchen"`
resolves to `service = "light.turn_on"`, `entity_id = "light.kitchen"`. -/
theorem c6_domain_inference :
    (∀ (s e : PyStr) (rest : PyDict),
      (∀ p ∈ rest, p.1 ≠ "service" ∧ p.1 ≠ "entity" ∧ p.1 ≠ "entity_id") →
      hasChar '.' s = false →
      resolveAction (("service", s) :: ("entity", e) :: rest) =
        .ok ⟨headSplit '.' e ++ '.' :: s, some e, rest⟩) ∧
    (∀ (s e : PyStr) (rest : PyDict),
      (∀ p ∈ rest, p.1 ≠ "service" ∧ p.1 ≠ "entity" ∧ p.1 ≠ "entity_id") →
      hasChar '.' s = true → hasChar '.' e = false →
      resolveAction (("service", s) :: ("entity", e) :: rest) =
        .ok ⟨s, some (headSplit '.' s ++ '.' :: e), rest⟩) ∧
    resolveAction [("service", pystr "turn_on"), ("entity", pystr "light.kitchen")] =
      .ok ⟨pystr "light.turn_on", some (pystr "light.kitchen"), []⟩ := by
  have hkey : ∀ (s e : PyStr) (rest : PyDict),
      (∀ p ∈ rest, p.1 ≠ "service" ∧ p.1 ≠ "entity" ∧ p.1 ≠ "entity_id") →
      lookup (("service", s) :: ("entity", e) :: rest) "entity_id" = none := by
    intro s e rest hrest
    apply lookup_none_of
    intro p hp
    rcases List.mem_cons.mp hp with rfl | hp2
    · simp
    · rcases List.mem_cons.mp hp2 with rfl | hp3
      · simp
      · exact (hrest p hp3).2.2
  refine ⟨?_, ?_, by decide⟩
  · intro s e rest hrest hs
    have h1 : lookup (("service", s) :: ("entity", e) :: rest) "service" = some s := rfl
    have h2 : lookup (("service", s) :: ("entity", e) :: rest) "entity" = some e := rfl
    simp [resolveAction, h1, h2, hkey s e rest hrest, hs, filter_keys_keep hrest]
  · intro s e rest hrest hs he
    have h1 : lookup (("service", s) :: ("entity", e) :: rest) "service" = some s := rfl
    have h2 : lookup (("service", s) :: ("entity", e) :: rest) "entity" = some e := rfl
    simp [resolveAction, h1, h2, hkey s e rest hrest, hs, he, filter_keys_keep hrest]

/-- C6 witness: the first inference rule applied to the spec's concrete
example. -/
theorem c6_witness :
    resolveAction [("service", pystr "turn_on"), ("entity", pystr "light.kitchen")] =
      .ok ⟨headSplit '.' (pystr "light.kitchen") ++ '.' :: pystr "turn_on",
        some (pystr "light.kitchen"), []⟩ :=
  c6_domain_inference.1 (pystr "turn_on") (pystr "light.kitchen") []
    (by intro p hp; cases hp) (by decide)

/-- C7.  Resolver lenient skip: action references that are not below the
action-table length are silently dropped — the resolution of any entry
equals the resolution of the same entry with only the in-range
references kept (so an out-of-range reference never raises), and when
every in-range reference resolves, the call list is exactly the calls of
the in-range references in their listed order.  Concretely, an entry
referencing `[0, 5, 1]` against a three-action table yields just the two
calls for 0 and 1. -/
theorem c7_lenient_skip :
    (∀ (acts : List PyDict) (refs : List Nat),
      service_calls_aux acts refs =
        service_calls_aux acts (refs.filter (fun r => decide (r < acts.length)))) ∧
    (∀ (acts : List PyDict) (refs : List Nat) (calls : List Call),
      List.Forall₂ (fun r c => ∃ a, acts[r]? = some a ∧ resolveAction a = .ok c)
        (refs.filter (fun r => decide (r < acts.length))) calls →
      service_calls_aux acts refs = .ok calls) ∧
    get_service_calls_for_entry dc3 0 =
      .ok [⟨pystr "light.turn_on", some (pystr "light.a"), []⟩,
        ⟨pystr "light.turn_on", some (pystr "light.b"), []⟩] := by
  refine ⟨service_calls_skip, ?_, by decide⟩
  intro acts refs calls hf
  rw [service_calls_skip]
  refine service_calls_all_ok acts _ calls ?_ hf
  intro r hr
  have hm := List.mem_filter.mp hr
  simpa using hm.2

/-- C7 witness: the all-in-order part applied to the concrete table
`acts3` with references `[0, 5, 1]`. -/
theorem c7_witness :
    service_calls_aux acts3 [0, 5, 1] =
      .ok [⟨pystr "light.turn_on", some (pystr "light.a"), []⟩,
        ⟨pystr "light.turn_on", some (pystr "light.b"), []⟩] :=
  c7_lenient_skip.2.1 acts3 [0, 5, 1] _ (by
    refine List.Forall₂.cons
      ⟨[("service", pystr "light.turn_on"), ("entity", pystr "light.a")],
        by decide, by decide⟩ ?_
    refine List.Forall₂.cons
      ⟨[("service", pystr "light.turn_on"), ("entity", pystr "light.b")],
        by decide, by decide⟩ ?_
    exact List.Forall₂.nil)

lemma get_next_entry_cons {σ : Type} (calcNext : Entry → Option σ → Int)
    (st : DataCollection σ) (now : Int) (t : Int) (rest : List Int)
    (hl : st.entries.map (fun e => calcNext e st.sun_data) = t :: rest) :
    get_next_entry calcNext st now =
      .ok (findFirstIdx (st.entries.map (fun e => calcNext e st.sun_data))
        (rest.foldl (fun x y => if x - now < y - now then x else y) t)) := by
  unfold get_next_entry
  rw [hl]

/-- C8.  `get_next_entry` on a non-empty entry list returns the index of
the entry whose computed next fire timestamp is minimal, and on ties the
smallest such index: the returned index is in range, its timestamp is
less than or equal to every timestamp, and every earlier index has a
strictly larger timestamp.  (`calculate_next_start_time` is the abstract
parameter `calcNext`; `now` is the external clock value.) -/
theorem c8_get_next_entry (σ : Type) (calcNext : Entry → Option σ → Int)
    (st : DataCollection σ) (now : Int) (h : st.entries ≠ []) :
    ∃ j, get_next_entry calcNext st now = .ok (some j) ∧
      j < st.entries.length ∧
      (∀ k, k < st.entries.length →
        (st.entries.map (fun e => calcNext e st.sun_data)).getD j 0 ≤
          (st.entries.map (fun e => calcNext e st.sun_data)).getD k 0) ∧
      (∀ k, k < j →
        (st.entries.map (fun e => calcNext e st.sun_data)).getD j 0 <
          (st.entries.map (fun e => calcNext e st.sun_data)).getD k 0) := by
  obtain ⟨t, rest, hl⟩ : ∃ t rest,
      st.entries.map (fun e => calcNext e st.sun_data) = t :: rest := by
    cases he : st.entries with
    | nil => exact absurd he h
    | cons e es =>
      exact ⟨calcNext e st.sun_data, es.map (fun x => calcNext x st.sun_data), rfl⟩
  have hval := get_next_entry_cons calcNext st now t rest hl
  have hlen : (st.entries.map (fun e => calcNext e st.sun_data)).length =
      st.entries.length := List.length_map _ _
  have hmem : rest.foldl (fun x y => if x - now < y - now then x else y) t ∈
      st.entries.map (fun e => calcNext e st.sun_data) := by
    rw [hl]
    rcases foldl_min_mem now rest t with hm | hm
    · rw [hm]; exact List.mem_cons_self t rest
    · exact List.mem_cons_of_mem t hm
  have hle : ∀ x ∈ st.entries.map (fun e => calcNext e st.sun_data),
      rest.foldl (fun x y => if x - now < y - now then x else y) t ≤ x := by
    intro x hx
    rw [hl] at hx
    obtain ⟨hle1, hle2⟩ := foldl_min_le now rest t
    rcases List.mem_cons.mp hx with rfl | hx
    · exact hle1
    · exact hle2 x hx
  obtain ⟨j, hj⟩ := findFirstIdx_mem _ _ hmem
  obtain ⟨hjlen, hjval, hjfirst⟩ := findFirstIdx_spec _ _ _ hj
  refine ⟨j, by rw [hval, hj], by rw [← hlen]; exact hjlen, ?_, ?_⟩
  · intro k hk
    rw [hjval]
    exact hle _ (getD_mem_int _ k (by rw [hlen]; exact hk))
  · intro k hk
    have hkl : k < (st.entries.map (fun e => calcNext e st.sun_data)).length := by omega
    have hne := hjfirst k hk
    have hge := hle _ (getD_mem_int _ k hkl)
    rw [hjval]
    rcases lt_or_eq_of_le hge with hlt | heq
    · exact hlt
    · exact absurd heq.symm hne

/-- C8 witness: under `dayCalc` the three entries of `dcThree` have
timestamps 5, 3, 3; the selected index is the first of the two tied
minima. -/
theorem c8_witness :
    ∃ j, get_next_entry dayCalc dcThree 0 = .ok (some j) ∧
      j < dcThree.entries.length ∧
      (∀ k, k < dcThree.entries.length →
        (dcThree.entries.map (fun e => dayCalc e dcThree.sun_data)).getD j 0 ≤
          (dcThree.entries.map (fun e => dayCalc e dcThree.sun_data)).getD k 0) ∧
      (∀ k, k < j →
        (dcThree.entries.map (fun e => dayCalc e dcThree.sun_data)).getD j 0 <
          (dcThree.entries.map (fun e => dayCalc e dcThree.sun_data)).getD k 0) :=
  c8_get_next_entry Unit dayCalc dcThree 0 (by decide)

/-- C9.  The compact string `"D0TSR0030ASSA0"` does not match
`EntryPattern` (its two time segments are glued incorrectly), so
`import_data` reports failure — it returns `False` and leaves the fresh
aggregate without entries. -/
theorem c9_malformed_rejected :
    import_data (newDC Unit) ⟨some [], some [pystr "D0TSR0030ASSA0"], none, none⟩ =
      (.ok false, newDC Unit) := by
  decide

/-- C10 (implicit, not atomic on error).  When a later compact entry
string fails the entry pattern, `import_data` returns `False`, but the
aggregate has already been mutated: `actions` was replaced by the
input's action list at the start, and every entry decoded before the
failing string stays appended to `entries` (while `name` and `icon`,
set only after a fully successful loop, are untouched). -/
theorem c10_non_atomic (σ : Type) (st : DataCollection σ) (acts : List PyDict)
    (gs : List (PyStr × Entry)) (bad : PyStr) (rest : List PyStr)
    (nm ic : Option PyStr)
    (hgs : ∀ p ∈ gs, importEntry p.1 = .ok p.2)
    (hbad : entryMatch bad = none) (_hnonempty : gs ≠ []) :
    import_data st ⟨some acts, some (gs.map (fun p => p.1) ++ bad :: rest), nm, ic⟩ =
      (.ok false, { st with
        actions := acts
        entries := st.entries ++ gs.map (fun p => p.2) }) := by
  have hbe : importEntry bad = .error .noMatchEntry := by
    rw [importEntry, hbad]
  simp only [import_data]
  rw [importEntries_good gs { st with actions := acts } (bad :: rest) hgs]
  simp [importEntries, hbe]

/-- C10 witness: importing `["D0T0700A0", "XYZ"]` into a fresh aggregate
returns `False` with the first entry already appended and the action
table already replaced. -/
theorem c10_witness :
    import_data (newDC Unit)
      ⟨some [[("service", pystr "light.turn_on")]],
        some [pystr "D0T0700A0", pystr "XYZ"], none, none⟩ =
      (.ok false, { newDC Unit with
        actions := [[("service", pystr "light.turn_on")]]
        entries := [⟨⟨some (pystr "07:00"), none, none⟩, none, [0], [0]⟩] }) := by
  have h := c10_non_atomic Unit (newDC Unit) [[("service", pystr "light.turn_on")]]
    [(pystr "D0T0700A0", ⟨⟨some (pystr "07:00"), none, none⟩, none, [0], [0]⟩)]
    (pystr "XYZ") [] none none (by decide) (by decide) (by decide)
  simpa [newDC] using h

end Scheduler



